import Mathlib

/-!
Verification development for the telemetry batching pipeline of
`l0-py-blocks-genesis` (`blocks_genesis/lmt`): the Mongo batch log exporter,
the async Mongo dynamic sink, the Mongo trace exporter, and the (test-covered)
service-bus delivery sender.  Python code is shallowly embedded: queues become
lists of iteration events, dicts become insertion-ordered association lists,
thread loops become folds over explicit event traces, and the sink's
`insert_many` outcome is an explicit boolean.
-/

namespace BlocksGenesis

/-! ## MongoBatchLogger (mongo_log_exporter.py) background worker -/

/-- One item the background worker can obtain from its ingestion queue in a
single loop iteration: either `queue.get` returned a document before the
timeout, or it raised `Empty` after `flush_interval_sec` elapsed. -/
inductive QEvent (α : Type) where
  | got (d : α)
  | timeout
deriving DecidableEq, Repr

/-- One iteration of `MongoBatchLogger._background_worker` as observed by the
worker thread: the queue event it saw, the value `self._stop_event.is_set()`
returned inside the flush condition, and whether the `insert_many` call (if one
happens this iteration) succeeds at the sink. -/
structure WIter (α : Type) where
  ev : QEvent α
  stop : Bool
  sinkOk : Bool
deriving DecidableEq, Repr

/-- State of the background worker: the in-progress `batch` list and all
`insert_many` transmissions so far (each recorded with its batch contents and
whether the sink accepted it). -/
structure WState (α : Type) where
  batch : List α
  flushes : List (List α × Bool)
deriving DecidableEq, Repr

/-- Embedding of one pass of the `while not self._stop_event.is_set()` loop body
of `MongoBatchLogger._background_worker`: append the dequeued document (if any)
to `batch`, then flush when `batch and (len(batch) >= self.batch_size or
self._stop_event.is_set())`.  `batch.clear()` runs after the `try/except`
around `insert_many`, so the batch is cleared whatever the sink outcome. -/
def background_worker_iter (batch_size : Nat) (s : WState α) (it : WIter α) :
    WState α :=
  let batch :=
    match it.ev with
    | .got d => s.batch ++ [d]
    | .timeout => s.batch
  if 0 < batch.length ∧ (batch_size ≤ batch.length ∨ it.stop = true) then
    ⟨[], s.flushes ++ [(batch, it.sinkOk)]⟩
  else
    ⟨batch, s.flushes⟩

/-- Embedding of the worker loop: fold the loop body over the iterations the
thread executes before it observes the stop event at the top of the loop. -/
def background_worker_run (batch_size : Nat) (s : WState α)
    (trace : List (WIter α)) : WState α :=
  trace.foldl (background_worker_iter batch_size) s

/-- Embedding of the shutdown drain after the loop exits
(`if batch: insert_many(batch)`): the list of all transmissions including the
final drain of a non-empty leftover batch. -/
def shutdown_flushes (drainOk : Bool) (s : WState α) : List (List α × Bool) :=
  if 0 < s.batch.length then s.flushes ++ [(s.batch, drainOk)] else s.flushes

/-- Documents carried by the `got` events of a trace, in queue order. -/
def trace_docs (trace : List (WIter α)) : List α :=
  trace.filterMap fun it =>
    match it.ev with
    | .got d => some d
    | .timeout => none

/-- Trace of a worker that dequeues the listed documents one per iteration,
with the stop event never observed mid-loop and a healthy sink. -/
def gots_trace (ds : List α) : List (WIter α) :=
  ds.map fun d => ⟨.got d, false, true⟩

/-- Trace of a worker that runs `n` loop iterations against an ingestion queue
currently holding `q` (in order) with no further producer activity: each
iteration dequeues the next pending document if one exists, otherwise
`queue.get` times out.  After these `n` iterations the worker observes the stop
event at the top of the loop and exits into the shutdown drain. -/
def queue_trace : List α → Nat → List (WIter α)
  | _, 0 => []
  | [], n + 1 => ⟨.timeout, false, true⟩ :: queue_trace ([] : List α) n
  | d :: q, n + 1 => ⟨.got d, false, true⟩ :: queue_trace q n

/-- Batch contents of every `insert_many` call made by a whole worker lifetime
(loop plus shutdown drain) over the given trace, starting from an empty batch. -/
def worker_lifetime_batches (batch_size : Nat) (trace : List (WIter α)) :
    List (List α) :=
  (shutdown_flushes true (background_worker_run batch_size ⟨[], []⟩ trace)).map
    Prod.fst

/-- Batch contents of every `insert_many` call made by a worker that runs `n`
loop iterations against queue contents `q`, then observes the stop request and
drains. -/
def worker_stop_batches (batch_size : Nat) (q : List α) (n : Nat) :
    List (List α) :=
  worker_lifetime_batches batch_size (queue_trace q n)

/-- Partition of a list into consecutive chunks of `b` elements with a final
shorter chunk holding the remainder; this is the spec-side description of the
batches a size-triggered accumulator should emit ("a flush occurs as soon as
batch_size records have accumulated, and the remainder starts a new batch"). -/
def chunk_partition (b : Nat) : List α → List (List α)
  | [] => []
  | d :: ds => (d :: ds.take (b - 1)) :: chunk_partition b (ds.drop (b - 1))
termination_by l => l.length
decreasing_by
  simp only [List.length_cons, List.length_drop]
  omega

/-! ## Insertion-ordered dict operations shared by the embeddings -/

/-- Lookup in an insertion-ordered association list, as Python `dict.get`
returning `None` when the key is absent. -/
def dget (m : List (String × β)) (k : String) : Option β :=
  match m with
  | [] => none
  | (k', v) :: rest => if k' = k then some v else dget rest k

/-- Python dict assignment `d[k] = v` on an insertion-ordered association
list: overwrite in place when the key exists, else append the new key last. -/
def dset (m : List (String × β)) (k : String) (v : β) : List (String × β) :=
  match m with
  | [] => [(k, v)]
  | (k', v') :: rest =>
    if k' = k then (k', v) :: rest else (k', v') :: dset rest k v

/-! ## MongoDBTraceExporter (mongo_trace_exporter.py) -/

/-- Embedding of `batch_by_tenant.setdefault(tenant_id, []).append(doc)` on an
insertion-ordered dict from tenant id to document list. -/
def bucket_add (m : List (String × List α)) (t : String) (d : α) :
    List (String × List α) :=
  match m with
  | [] => [(t, [d])]
  | (k, v) :: rest =>
    if k = t then (k, v ++ [d]) :: rest else (k, v) :: bucket_add rest t d

/-- Accumulation of a sequence of `(tenant_id, doc)` queue items into a
`batch_by_tenant` dict that already holds `m`. -/
def bucket_fold_from (m : List (String × List α)) (l : List (String × α)) :
    List (String × List α) :=
  l.foldl (fun m p => bucket_add m p.1 p.2) m

/-- Accumulation of a sequence of `(tenant_id, doc)` queue items into an empty
`batch_by_tenant` dict, as `MongoDBTraceExporter._run` does between flushes. -/
def bucket_fold (l : List (String × α)) : List (String × List α) :=
  bucket_fold_from [] l

/-- Records of a span sequence that belong to tenant `u`, in enqueue order. -/
def tenant_records (l : List (String × α)) (u : String) : List α :=
  (l.filter fun p => p.1 == u).map Prod.snd

/-- Total number of span records accumulated in a `batch_by_tenant` dict. -/
def total_span_records (m : List (String × List α)) : Nat :=
  (m.map fun p => p.2.length).sum

/-- Embedding of the trace exporter's inner accumulation loop
`while len(batch_by_tenant) < self._batch_size: tenant_id, doc =
self._queue.get(...); batch_by_tenant.setdefault(tenant_id, []).append(doc)`:
consume pending queue items until the guard `len(batch_by_tenant) <
batch_size` fails (note `len` of a Python dict counts its keys).  Returns the
accumulated dict and the items left unconsumed when the size trigger fired. -/
def span_accumulate (batch_size : Nat) (m : List (String × List α)) :
    List (String × α) → List (String × List α) × List (String × α)
  | [] => (m, [])
  | p :: rest =>
    if batch_size ≤ m.length then (m, p :: rest)
    else span_accumulate batch_size (bucket_add m p.1 p.2) rest

/-! ## MongoDBDynamicSink (mongo_dynamic_sink.py) -/

/-- Embedding of `MongoDBDynamicSink.flush`: given the pending `self.batch` and
whether `insert_many` succeeds, return the new pending batch and the list of
transmissions attempted.  The source returns immediately on an empty batch;
`self.batch.clear()` runs only after a successful `insert_many`, and the
`except` branch merely prints, leaving the batch as it was. -/
def sink_flush (batch : List α) (ok : Bool) : List α × List (List α) :=
  if batch.length = 0 then (batch, [])
  else if ok then ([], [batch])
  else (batch, [batch])

/-- Embedding of `MongoDBDynamicSink.emit`: append the event to the pending
batch and flush when `len(self.batch) >= self.batch_size`. -/
def sink_emit (batch_size : Nat) (batch : List α) (e : α) (ok : Bool) :
    List α × List (List α) :=
  let batch := batch ++ [e]
  if batch_size ≤ batch.length then sink_flush batch ok else (batch, [])

/-! ## Log document construction -/

/-- Value stored in an embedded BSON-bound document: a string, Python `None`,
or a timestamp. -/
inductive BVal where
  | s (v : String)
  | null
  | time (t : Nat)
deriving DecidableEq, Repr

/-- Embedding of the document built by `MongoBatchLogger.enqueue` for one
`logging.LogRecord`: `{"Timestamp": datetime.now(), "Level": record.levelname,
"Message": record.getMessage(), "TenantId": tenant_id, "TraceId": trace_id,
"SpanId": span_id}` where `tenant_id, trace_id, span_id = get_trace_context()`
(the tenant falls back to "Misc", and the ids may be `None`). -/
def mongo_enqueue_doc (now : Nat) (levelname message : String)
    (tenant_id : String) (trace_id span_id : Option String) :
    List (String × BVal) :=
  [("Timestamp", .time now),
   ("Level", .s levelname),
   ("Message", .s message),
   ("TenantId", .s tenant_id),
   ("TraceId", (trace_id.map BVal.s).getD .null),
   ("SpanId", (span_id.map BVal.s).getD .null)]

/-- Embedding of the Python `str.upper()` call used on the structlog level:
uppercase every character of the string. -/
def py_upper (s : String) : String := ⟨s.data.map Char.toUpper⟩

/-- Embedding of `MongoDBDynamicSink.create_log_document`: the base document
holds the timestamp, `event_dict.get("event")` as Message,
`event_dict.get("level").upper()` as Level (the call fails when "level" is
absent or not a string, modelled as `none`), `event_dict.get("exception", "")`,
and the sink's configured ServiceName; every other `event_dict` entry is then
copied in by dict assignment. -/
def create_log_document (service_name : String) (now : Nat)
    (event_dict : List (String × BVal)) : Option (List (String × BVal)) :=
  match dget event_dict "level" with
  | some (.s lvl) =>
    let base : List (String × BVal) :=
      [("Timestamp", .time now),
       ("Message", (dget event_dict "event").getD .null),
       ("Level", .s (py_upper lvl)),
       ("Exception", (dget event_dict "exception").getD (.s "")),
       ("ServiceName", .s service_name)]
    some (event_dict.foldl
      (fun d p =>
        if p.1 = "event" ∨ p.1 = "level" ∨ p.1 = "exception" then d
        else dset d p.1 p.2)
      base)
  | _ => none

/-! ## Delivery sender with retry and quarantine -/

/-- A quarantined batch: the sealed batch contents together with the retry
counter it carries when handed to the quarantine store. -/
structure FailedLogBatch (α : Type) where
  Logs : List α
  RetryCount : Nat
deriving DecidableEq, Repr

/-- Synchronous retry loop: attempt the send starting at attempt index
`attempt` with `rem` attempts remaining; `ok i` tells whether the i-th send
attempt succeeds.  Returns the number of send calls made and whether one
succeeded. -/
def send_loop (ok : Nat → Bool) : Nat → Nat → Nat × Bool
  | _, 0 => (0, false)
  | attempt, rem + 1 =>
    if ok attempt then (1, true)
    else
      let r := send_loop ok (attempt + 1) rem
      (r.1 + 1, r.2)

/-- Modelled from the spec: `LmtServiceBusSender.send_logs_async` of
`blocks_lmt/azure_servicebus_log_exporter.py` is missing from the sources (only
its tests are present).  Per the spec's retry policy, transmission of a sealed
batch is retried synchronously up to `max_retries` total send attempts; a
successful send at any attempt discards the batch, and if all attempts are
exhausted the batch is handed to the quarantine store with a retry counter
of 1 rather than dropped.  Returns the number of send calls made and the
quarantine entry, if any. -/
def send_logs_async (max_retries : Nat) (ok : Nat → Bool) (batch : List α) :
    Nat × Option (FailedLogBatch α) :=
  let r := send_loop ok 0 max_retries
  (r.1, if r.2 then none else some ⟨batch, 1⟩)

/-! ## MongoHandler singleton (mongo_log_exporter.py) -/

/-- Configuration a `MongoBatchLogger` is constructed with. -/
structure MongoBatchLoggerCfg where
  batch_size : Nat
  flush_interval_sec : Nat
deriving DecidableEq, Repr

/-- Embedding of `MongoHandler.__init__`: given the class attribute
`MongoHandler._mongo_logger` (a `MongoBatchLogger` instance or `None`), create
the batch logger only when the attribute is unset (`if not
MongoHandler._mongo_logger`), then store the shared instance on the handler.
Returns the updated class attribute and the handler's `mongo_logger`. -/
def mongo_handler_init (st : Option MongoBatchLoggerCfg)
    (batch_size flush_interval_sec : Nat) :
    Option MongoBatchLoggerCfg × MongoBatchLoggerCfg :=
  match st with
  | none =>
    let l : MongoBatchLoggerCfg := ⟨batch_size, flush_interval_sec⟩
    (some l, l)
  | some l => (some l, l)

/-- Construct a sequence of `MongoHandler`s in one process, starting from the
given class-attribute state; returns the final class attribute and the
`mongo_logger` instance each handler ended up sharing. -/
def mongo_handler_construct_all (st : Option MongoBatchLoggerCfg)
    (calls : List (Nat × Nat)) :
    Option MongoBatchLoggerCfg × List MongoBatchLoggerCfg :=
  calls.foldl
    (fun acc c =>
      let r := mongo_handler_init acc.1 c.1 c.2
      (r.1, acc.2 ++ [r.2]))
    (st, [])

end BlocksGenesis

namespace BlocksGenesis

/-! ## Claim theorems -/

/-- C1: with the default `batch_size=50`, the worker dequeues one record, then
`queue.get` times out after `flush_interval_sec` (the `Empty` branch), the stop
event is never set: the flush condition `len(batch) >= batch_size or stop` is
false, so `insert_many` is never called and the record stays in the in-progress
batch — `MongoBatchLogger` performs no time-triggered flush, contradicting the
claim that exactly one flush containing the record occurs once
`flush_interval` elapses. -/
theorem C1_time_trigger_never_flushes_log_batcher :
    (background_worker_run 50 ⟨[], []⟩
        [⟨.got (0 : Nat), false, true⟩, ⟨.timeout, false, true⟩]).flushes = []
    ∧ (background_worker_run 50 ⟨[], []⟩
        [⟨.got (0 : Nat), false, true⟩, ⟨.timeout, false, true⟩]).batch = [0] := by
  constructor <;> rfl

/-- Partitioning the empty list gives no chunks. -/
theorem chunk_partition_nil (b : Nat) :
    chunk_partition b ([] : List α) = [] := by
  rw [chunk_partition]

/-- Joining the chunks of a partition recovers the original list. -/
theorem chunk_partition_flatten (b : Nat) :
    ∀ (l : List α), (chunk_partition b l).flatten = l
  | [] => by rw [chunk_partition]; rfl
  | d :: ds => by
    rw [chunk_partition, List.flatten_cons,
      chunk_partition_flatten b (ds.drop (b - 1))]
    simp [List.take_append_drop]
termination_by l => l.length
decreasing_by simp only [List.length_cons, List.length_drop]; omega

/-- A non-empty list no longer than the chunk size is a single chunk. -/
theorem chunk_partition_of_le (b : Nat) (l : List α) (h : l ≠ [])
    (hle : l.length ≤ b) : chunk_partition b l = [l] := by
  cases l with
  | nil => exact absurd rfl h
  | cons d ds =>
    rw [chunk_partition]
    have h1 : ds.length ≤ b - 1 := by
      simp only [List.length_cons] at hle; omega
    rw [List.take_of_length_le h1, List.drop_eq_nil_of_le h1,
      chunk_partition_nil]

/-- Peeling a full first chunk off a partition. -/
theorem chunk_partition_append (b : Nat) (pre post : List α)
    (h : pre.length = b) (hb : 0 < b) :
    chunk_partition b (pre ++ post) = pre :: chunk_partition b post := by
  cases pre with
  | nil => simp at h; omega
  | cons p pt =>
    rw [List.cons_append, chunk_partition]
    have hpt : pt.length = b - 1 := by
      simp only [List.length_cons] at h; omega
    rw [List.take_left' hpt, List.drop_left' hpt]

/-- The first chunk of a partition of a non-empty list is its first `b`
elements. -/
theorem chunk_partition_head (b : Nat) (l : List α) (hb : 0 < b)
    (h : l ≠ []) : (chunk_partition b l).head? = some (l.take b) := by
  cases l with
  | nil => exact absurd rfl h
  | cons d ds =>
    rw [chunk_partition, List.head?_cons]
    congr 1
    cases b with
    | zero => omega
    | succ n => simp [List.take_succ_cons]

/-- Reduced form of a worker iteration that dequeued a document while the stop
event was unset. -/
theorem background_worker_iter_got (bs : Nat) (batch : List α)
    (F : List (List α × Bool)) (d : α) (ok : Bool) :
    background_worker_iter bs ⟨batch, F⟩ ⟨.got d, false, ok⟩
      = if bs ≤ batch.length + 1 then
          (⟨[], F ++ [(batch ++ [d], ok)]⟩ : WState α)
        else ⟨batch ++ [d], F⟩ := by
  show (if 0 < (batch ++ [d]).length
        ∧ (bs ≤ (batch ++ [d]).length ∨ (false = true)) then
      (⟨[], F ++ [(batch ++ [d], ok)]⟩ : WState α)
    else ⟨batch ++ [d], F⟩) = _
  have hlen : (batch ++ [d]).length = batch.length + 1 := by simp
  by_cases hc : bs ≤ batch.length + 1
  · rw [if_pos ⟨by simp, Or.inl (by omega)⟩, if_pos hc]
  · have hneg : ¬ (0 < (batch ++ [d]).length
        ∧ (bs ≤ (batch ++ [d]).length ∨ (false = true))) := by
      rintro ⟨-, hor⟩
      rcases hor with hle | hst
      · exact hc (by omega)
      · exact Bool.false_ne_true hst
    rw [if_neg hneg, if_neg hc]

/-- One worker iteration keeps the in-progress batch strictly below the batch
size. -/
theorem background_worker_iter_batch_lt (bs : Nat) (hb : 0 < bs)
    (s : WState α) (it : WIter α) (hs : s.batch.length < bs) :
    (background_worker_iter bs s it).batch.length < bs := by
  obtain ⟨ev, stop, ok⟩ := it
  cases ev with
  | got d =>
    simp only [background_worker_iter]
    split
    · next h => simpa using hb
    · next h =>
      push_neg at h
      have h2 := (h (by simp)).1
      show (s.batch ++ [d]).length < bs
      simp only [List.length_append, List.length_cons, List.length_nil] at h2 ⊢
      omega
  | timeout =>
    simp only [background_worker_iter]
    split
    · next h => simpa using hb
    · next h => exact hs

/-- The worker loop keeps the in-progress batch strictly below the batch
size. -/
theorem background_worker_run_batch_lt (bs : Nat) (hb : 0 < bs) :
    ∀ (trace : List (WIter α)) (s : WState α), s.batch.length < bs →
      (background_worker_run bs s trace).batch.length < bs := by
  intro trace
  induction trace with
  | nil => intro s hs; exact hs
  | cons it rest ih =>
    intro s hs
    rw [background_worker_run, List.foldl_cons]
    exact ih _ (background_worker_iter_batch_lt bs hb s it hs)

/-- A timed-out `queue.get` with the stop event unset and the batch below the
batch size leaves the worker state unchanged. -/
theorem background_worker_iter_timeout (bs : Nat) (s : WState α) (ok : Bool)
    (hs : s.batch.length < bs) :
    background_worker_iter bs s ⟨.timeout, false, ok⟩ = s := by
  show (if 0 < s.batch.length ∧ (bs ≤ s.batch.length ∨ (false = true)) then
      (⟨[], s.flushes ++ [(s.batch, ok)]⟩ : WState α)
    else ⟨s.batch, s.flushes⟩) = s
  have hneg : ¬ (0 < s.batch.length
      ∧ (bs ≤ s.batch.length ∨ (false = true))) := by
    rintro ⟨-, hor⟩
    rcases hor with hle | hst
    · omega
    · exact Bool.false_ne_true hst
  rw [if_neg hneg]

/-- A run of timed-out iterations with the stop event unset is a no-op. -/
theorem background_worker_run_timeouts (bs : Nat) :
    ∀ (k : Nat) (s : WState α), s.batch.length < bs →
      background_worker_run bs s
        (List.replicate k ⟨QEvent.timeout, false, true⟩) = s := by
  intro k
  induction k with
  | zero => intro s _; rfl
  | succ n ih =>
    intro s hs
    rw [List.replicate_succ, background_worker_run, List.foldl_cons,
      background_worker_iter_timeout bs s true hs]
    exact ih s hs

/-- Unfolding the worker loop one iteration at a time. -/
theorem background_worker_run_cons (bs : Nat) (s : WState α) (it : WIter α)
    (rest : List (WIter α)) :
    background_worker_run bs s (it :: rest)
      = background_worker_run bs (background_worker_iter bs s it) rest := rfl

/-- Unfolding the document trace one record at a time. -/
theorem gots_trace_cons (d : α) (rest : List α) :
    gots_trace (d :: rest)
      = (⟨.got d, false, true⟩ : WIter α) :: gots_trace rest := rfl

/-- Main drain lemma: a worker that dequeues a document per iteration and then
drains on shutdown emits exactly the chunk partition of its input, appended to
whatever it had flushed before. -/
theorem worker_drain_gots (bs : Nat) (hb : 0 < bs) :
    ∀ (ds batch : List α) (F : List (List α × Bool)), batch.length < bs →
      (shutdown_flushes true
          (background_worker_run bs ⟨batch, F⟩ (gots_trace ds))).map Prod.fst
        = F.map Prod.fst ++ chunk_partition bs (batch ++ ds) := by
  intro ds
  induction ds with
  | nil =>
    intro batch F hlt
    show (shutdown_flushes true ⟨batch, F⟩).map Prod.fst = _
    rw [List.append_nil]
    simp only [shutdown_flushes]
    split
    · next hpos =>
      have hne : batch ≠ [] := by
        intro h; rw [h] at hpos; simp at hpos
      rw [List.map_append,
        chunk_partition_of_le bs batch hne (Nat.le_of_lt hlt)]
      rfl
    · next hpos =>
      have hnil : batch = [] := by
        cases batch with
        | nil => rfl
        | cons x xs => exact absurd (by simp) hpos
      rw [hnil, chunk_partition_nil, List.append_nil]
  | cons d rest ih =>
    intro batch F hlt
    rw [gots_trace_cons, background_worker_run_cons,
      background_worker_iter_got]
    by_cases hfull : bs ≤ batch.length + 1
    · rw [if_pos hfull, ih [] (F ++ [(batch ++ [d], true)]) (by simpa using hb)]
      have hlen : (batch ++ [d]).length = bs := by
        simp only [List.length_append, List.length_cons, List.length_nil]
        omega
      rw [show batch ++ d :: rest = (batch ++ [d]) ++ rest by simp,
        chunk_partition_append bs (batch ++ [d]) rest hlen hb]
      simp
    · rw [if_neg hfull, ih (batch ++ [d]) F (by
        simp only [List.length_append, List.length_cons, List.length_nil]
        omega)]
      simp

/-- C4: for a sequence of at least `batch_size` enqueued records processed by
the log batcher's background worker (one dequeue per iteration, no failures,
with the shutdown drain), the `insert_many` batches are exactly the consecutive
chunks of `batch_size` records with the remainder as the final batch: the first
flush happens as soon as `batch_size` records have accumulated and equals the
first `batch_size` records, the flushed batches concatenate back to the
enqueued sequence (no record duplicated or skipped), in enqueue order. -/
theorem C4_batch_partition (bs : Nat) (ds : List α) (hb : 0 < bs)
    (hN : bs ≤ ds.length) :
    worker_lifetime_batches bs (gots_trace ds) = chunk_partition bs ds
    ∧ (worker_lifetime_batches bs (gots_trace ds)).flatten = ds
    ∧ (worker_lifetime_batches bs (gots_trace ds)).head? = some (ds.take bs) := by
  have hmain : worker_lifetime_batches bs (gots_trace ds)
      = chunk_partition bs ds := by
    unfold worker_lifetime_batches
    have := worker_drain_gots bs hb ds [] [] (by simpa using hb)
    simpa using this
  refine ⟨hmain, ?_, ?_⟩
  · rw [hmain, chunk_partition_flatten]
  · rw [hmain]
    apply chunk_partition_head bs ds hb
    intro h
    rw [h] at hN
    simp at hN
    omega

/-- Witness for C4 at `batch_size = 2` and three enqueued records. -/
theorem C4_batch_partition_witness :
    (0 < 2 ∧ 2 ≤ ([(0 : Nat), 1, 2] : List Nat).length)
    ∧ (worker_lifetime_batches 2 (gots_trace [(0 : Nat), 1, 2])
          = chunk_partition 2 [0, 1, 2]
        ∧ (worker_lifetime_batches 2 (gots_trace [(0 : Nat), 1, 2])).flatten
          = [0, 1, 2]
        ∧ (worker_lifetime_batches 2 (gots_trace [(0 : Nat), 1, 2])).head?
          = some [0, 1]) :=
  ⟨⟨by decide, by decide⟩, C4_batch_partition 2 [0, 1, 2] (by decide) (by decide)⟩

/-- A worker facing queue contents `q` for `n` iterations sees the first
`min n q.length` documents as dequeues followed by timed-out waits. -/
theorem queue_trace_decomp :
    ∀ (n : Nat) (q : List α),
      queue_trace q n
        = gots_trace (q.take n)
          ++ List.replicate (n - q.length) ⟨QEvent.timeout, false, true⟩ := by
  intro n
  induction n with
  | zero =>
    intro q
    rw [queue_trace]
    simp [gots_trace]
  | succ m ih =>
    intro q
    cases q with
    | nil =>
      rw [queue_trace, ih]
      simp [gots_trace, List.replicate_succ]
    | cons d rest =>
      rw [queue_trace, ih, List.take_succ_cons, gots_trace_cons]
      simp

/-- C5 counterexample: one record is enqueued (the queue holds it), the stop
request is observed by the worker before it runs any loop iteration, so the
worker exits and the shutdown drain flushes nothing — the record enqueued
before the stop request appears in no flush, contradicting the claim that
every record enqueued before the stop request is included in some flush. -/
theorem C5_counterexample_queued_record_dropped :
    worker_stop_batches 50 [(0 : Nat)] 0 = [] := rfl

/-- C5 (amended): once the worker observes the stop request after `n` loop
iterations against queue contents `q`, its whole lifetime of `insert_many`
batches is exactly the chunk partition of the records it actually dequeued
(`q.take n`): the non-empty in-progress batch is force-flushed exactly once by
the final drain, every dequeued record appears in exactly one flush, and
records still sitting in the ingestion queue (`q.drop n`) appear in none. -/
theorem C5_shutdown_drain_flushes_dequeued_records (bs : Nat) (q : List α)
    (n : Nat) (hb : 0 < bs) :
    worker_stop_batches bs q n = chunk_partition bs (q.take n)
    ∧ (worker_stop_batches bs q n).flatten = q.take n := by
  have hmain : worker_stop_batches bs q n = chunk_partition bs (q.take n) := by
    unfold worker_stop_batches worker_lifetime_batches
    rw [queue_trace_decomp, background_worker_run, List.foldl_append]
    rw [show List.foldl (background_worker_iter bs) ⟨[], []⟩
          (gots_trace (q.take n))
        = background_worker_run bs ⟨[], []⟩ (gots_trace (q.take n)) from rfl]
    rw [show List.foldl (background_worker_iter bs)
          (background_worker_run bs ⟨[], []⟩ (gots_trace (q.take n)))
          (List.replicate (n - q.length) ⟨QEvent.timeout, false, true⟩)
        = background_worker_run bs
            (background_worker_run bs ⟨[], []⟩ (gots_trace (q.take n)))
            (List.replicate (n - q.length) ⟨QEvent.timeout, false, true⟩)
        from rfl]
    rw [background_worker_run_timeouts bs (n - q.length) _
      (background_worker_run_batch_lt bs hb _ _ (by simpa using hb))]
    have := worker_drain_gots bs hb (q.take n) [] [] (by simpa using hb)
    simpa using this
  exact ⟨hmain, by rw [hmain, chunk_partition_flatten]⟩

/-- Witness for C5 amended: batch size 2, a queue of three records, three
iterations before the stop request is observed. -/
theorem C5_shutdown_drain_witness :
    (0 < 2)
    ∧ (worker_stop_batches 2 [(0 : Nat), 1, 2] 3
          = chunk_partition 2 [0, 1, 2]
        ∧ (worker_stop_batches 2 [(0 : Nat), 1, 2] 3).flatten = [0, 1, 2]) :=
  ⟨by decide, C5_shutdown_drain_flushes_dequeued_records 2 [0, 1, 2] 3 (by decide)⟩

/-- Transmitted batches of the whole loop concatenated with the pending batch
give back exactly the dequeued documents, whatever the per-flush sink
outcomes were. -/
theorem worker_flushes_partition (bs : Nat) :
    ∀ (trace : List (WIter α)) (s : WState α),
      ((background_worker_run bs s trace).flushes.map Prod.fst).flatten
          ++ (background_worker_run bs s trace).batch
        = (s.flushes.map Prod.fst).flatten ++ s.batch ++ trace_docs trace := by
  intro trace
  induction trace with
  | nil =>
    intro s
    simp [background_worker_run, trace_docs]
  | cons it rest ih =>
    intro s
    rw [background_worker_run_cons, ih]
    obtain ⟨ev, stop, ok⟩ := it
    cases ev with
    | got d =>
      have hdocs : trace_docs ((⟨.got d, stop, ok⟩ : WIter α) :: rest)
          = d :: trace_docs rest := by
        simp [trace_docs]
      rw [hdocs]
      simp only [background_worker_iter]
      split
      · simp
      · simp
    | timeout =>
      have hdocs : trace_docs ((⟨.timeout, stop, ok⟩ : WIter α) :: rest)
          = trace_docs rest := by
        simp [trace_docs]
      rw [hdocs]
      simp only [background_worker_iter]
      split
      · simp
      · simp

/-- C9: the in-progress batch is cleared after every `insert_many` attempt
whether the sink accepted it or not (one worker iteration leaves the same
batch and the same transmitted batch contents for any sink outcome), and over
a whole worker lifetime (loop plus shutdown drain) the transmitted batches
concatenate to exactly the dequeued records — so every enqueued record is
contained in at most one transmission, and records of a failed batch are never
retransmitted. -/
theorem C9_at_most_once_transmission (bs : Nat) (trace : List (WIter Nat)) :
    (∀ (s : WState Nat) (ev : QEvent Nat) (stop ok ok' : Bool),
        (background_worker_iter bs s ⟨ev, stop, ok⟩).batch
          = (background_worker_iter bs s ⟨ev, stop, ok'⟩).batch
        ∧ (background_worker_iter bs s ⟨ev, stop, ok⟩).flushes.map Prod.fst
          = (background_worker_iter bs s ⟨ev, stop, ok'⟩).flushes.map Prod.fst)
    ∧ (worker_lifetime_batches bs trace).flatten = trace_docs trace := by
  constructor
  · intro s ev stop ok ok'
    cases ev with
    | got d =>
      simp only [background_worker_iter]
      constructor
      · split <;> simp
      · split <;> simp
    | timeout =>
      simp only [background_worker_iter]
      constructor
      · split <;> simp
      · split <;> simp
  · unfold worker_lifetime_batches shutdown_flushes
    have hpart := worker_flushes_partition bs trace ⟨[], []⟩
    simp only [List.map_nil, List.flatten_nil, List.nil_append] at hpart
    split
    · next hpos =>
      rw [List.map_append]
      simp only [List.map_cons, List.map_nil, List.flatten_append]
      rw [← hpart]
      simp
    · next hpos =>
      have hnil : (background_worker_run bs ⟨[], []⟩ trace).batch = [] := by
        cases hcase : (background_worker_run bs ⟨[], []⟩ trace).batch with
        | nil => rfl
        | cons x xs => rw [hcase] at hpos; exact absurd (by simp) hpos
      rw [← hpart, hnil, List.append_nil]

/-- Lookup succeeds in an insertion-ordered dict exactly for its keys. -/
theorem dget_isSome_iff (m : List (String × β)) (u : String) :
    (dget m u).isSome ↔ u ∈ m.map Prod.fst := by
  induction m with
  | nil => simp [dget]
  | cons p rest ih =>
    obtain ⟨k, v⟩ := p
    by_cases h : k = u
    · subst h
      simp [dget]
    · simp [dget, h, ih, Ne.symm h]

/-- Appending a span to its tenant bucket: lookup at the same tenant. -/
theorem dget_bucket_add_same (m : List (String × List α)) (t : String)
    (d : α) :
    dget (bucket_add m t d) t = some (((dget m t).getD []) ++ [d]) := by
  induction m with
  | nil => simp [bucket_add, dget]
  | cons p rest ih =>
    obtain ⟨k, v⟩ := p
    by_cases h : k = t
    · subst h
      simp [bucket_add, dget]
    · simp [bucket_add, dget, h, ih]

/-- Appending a span to one tenant bucket leaves other tenants unchanged. -/
theorem dget_bucket_add_ne (m : List (String × List α)) (t u : String)
    (d : α) (h : t ≠ u) :
    dget (bucket_add m t d) u = dget m u := by
  induction m with
  | nil => simp [bucket_add, dget, h]
  | cons p rest ih =>
    obtain ⟨k, v⟩ := p
    by_cases hk : k = t
    · subst hk
      simp [bucket_add, dget, h, ih]
    · simp [bucket_add, dget, hk, ih]

/-- Keys after a bucket insertion: unchanged for a known tenant, appended for a
new one. -/
theorem bucket_add_keys (m : List (String × List α)) (t : String) (d : α) :
    (bucket_add m t d).map Prod.fst
      = if (dget m t).isSome then m.map Prod.fst
        else m.map Prod.fst ++ [t] := by
  induction m with
  | nil => simp [bucket_add, dget]
  | cons p rest ih =>
    obtain ⟨k, v⟩ := p
    by_cases h : k = t
    · subst h
      simp [bucket_add, dget]
    · by_cases hs : (dget rest t).isSome
      · simp [bucket_add, dget, h, ih, hs]
      · simp [bucket_add, dget, h, ih, hs]

/-- Bucket insertion preserves distinctness of the tenant keys. -/
theorem bucket_add_nodup (m : List (String × List α)) (t : String) (d : α)
    (h : (m.map Prod.fst).Nodup) :
    ((bucket_add m t d).map Prod.fst).Nodup := by
  rw [bucket_add_keys]
  split
  · exact h
  · next hns =>
    have ht : t ∉ m.map Prod.fst := by
      rw [← dget_isSome_iff]
      simpa using hns
    simp [List.nodup_append, h, ht]

/-- Unfolding the bucket accumulation one span at a time. -/
theorem bucket_fold_from_cons (m : List (String × List α))
    (p : String × α) (l : List (String × α)) :
    bucket_fold_from m (p :: l) = bucket_fold_from (bucket_add m p.1 p.2) l :=
  rfl

/-- The accumulated dict always has distinct tenant keys. -/
theorem bucket_fold_from_nodup :
    ∀ (l : List (String × α)) (m : List (String × List α)),
      (m.map Prod.fst).Nodup →
      ((bucket_fold_from m l).map Prod.fst).Nodup := by
  intro l
  induction l with
  | nil => intro m h; exact h
  | cons p rest ih =>
    intro m h
    rw [bucket_fold_from_cons]
    exact ih _ (bucket_add_nodup m p.1 p.2 h)

/-- Per-tenant records of a span sequence, head unfoldings. -/
theorem tenant_records_cons_same (t : String) (d : α)
    (l : List (String × α)) :
    tenant_records ((t, d) :: l) t = d :: tenant_records l t := by
  simp [tenant_records]

/-- Per-tenant records ignore spans of other tenants. -/
theorem tenant_records_cons_ne (t u : String) (d : α)
    (l : List (String × α)) (h : t ≠ u) :
    tenant_records ((t, d) :: l) u = tenant_records l u := by
  simp [tenant_records, List.filter_cons, h]

/-- Accumulating spans on top of a dict that already has a bucket for tenant
`u` appends that tenant's records to the bucket in enqueue order. -/
theorem dget_bucket_fold_from_some :
    ∀ (l : List (String × α)) (m : List (String × List α)) (u : String)
      (v : List α), dget m u = some v →
      dget (bucket_fold_from m l) u = some (v ++ tenant_records l u) := by
  intro l
  induction l with
  | nil =>
    intro m u v h
    simp only [bucket_fold_from, List.foldl_nil, tenant_records,
      List.filter_nil, List.map_nil, List.append_nil]
    exact h
  | cons p rest ih =>
    intro m u v h
    obtain ⟨t, d⟩ := p
    rw [bucket_fold_from_cons]
    by_cases ht : t = u
    · subst ht
      have hadd : dget (bucket_add m t d) t = some (v ++ [d]) := by
        rw [dget_bucket_add_same, h]
        rfl
      rw [ih _ _ _ hadd, tenant_records_cons_same]
      simp
    · have hadd : dget (bucket_add m t d) u = some v := by
        rw [dget_bucket_add_ne m t u d ht]
        exact h
      rw [ih _ _ _ hadd, tenant_records_cons_ne t u d rest ht]

/-- Accumulating spans into a dict with no bucket for tenant `u` produces
exactly that tenant's records, in enqueue order (or no bucket at all when the
tenant never appears). -/
theorem dget_bucket_fold_from_none :
    ∀ (l : List (String × α)) (m : List (String × List α)) (u : String),
      dget m u = none →
      (tenant_records l u = [] → dget (bucket_fold_from m l) u = none)
      ∧ (tenant_records l u ≠ [] →
          dget (bucket_fold_from m l) u = some (tenant_records l u)) := by
  intro l
  induction l with
  | nil =>
    intro m u h
    constructor
    · intro _
      simpa [bucket_fold_from] using h
    · intro hne
      exact absurd (by simp [tenant_records]) hne
  | cons p rest ih =>
    intro m u h
    obtain ⟨t, d⟩ := p
    rw [bucket_fold_from_cons]
    by_cases ht : t = u
    · subst ht
      have hadd : dget (bucket_add m t d) t = some [d] := by
        rw [dget_bucket_add_same, h]
        rfl
      constructor
      · intro hnil
        rw [tenant_records_cons_same] at hnil
        exact absurd hnil (by simp)
      · intro _
        rw [dget_bucket_fold_from_some rest _ _ _ hadd,
          tenant_records_cons_same]
        simp
    · have hadd : dget (bucket_add m t d) u = none := by
        rw [dget_bucket_add_ne m t u d ht]
        exact h
      have hrec := tenant_records_cons_ne t u d rest ht
      constructor
      · intro hnil
        rw [hrec] at hnil
        exact (ih _ _ hadd).1 hnil
      · intro hne
        rw [hrec] at hne ⊢
        exact (ih _ _ hadd).2 hne

/-- Lookup of a tenant with at least one span in the dict accumulated between
two flushes yields that tenant's spans in enqueue order. -/
theorem dget_bucket_fold_of_ne_nil (l : List (String × α)) (u : String)
    (h : tenant_records l u ≠ []) :
    dget (bucket_fold l) u = some (tenant_records l u) :=
  (dget_bucket_fold_from_none l [] u rfl).2 h

/-- A tenant with no span since the last flush has no bucket. -/
theorem dget_bucket_fold_of_nil (l : List (String × α)) (u : String)
    (h : tenant_records l u = []) :
    dget (bucket_fold l) u = none :=
  (dget_bucket_fold_from_none l [] u rfl).1 h

/-- A tenant has a bucket in the accumulated dict exactly when it had at least
one span since the last flush. -/
theorem mem_bucket_fold_keys (l : List (String × α)) (u : String) :
    u ∈ (bucket_fold l).map Prod.fst ↔ tenant_records l u ≠ [] := by
  rw [← dget_isSome_iff]
  by_cases h : tenant_records l u = []
  · rw [dget_bucket_fold_of_nil l u h]
    simp [h]
  · rw [dget_bucket_fold_of_ne_nil l u h]
    simp [h]

/-- A tenant with at least one record in a span sequence appears as the first
component of one of its items. -/
theorem tenant_records_ne_nil_exists (l : List (String × α)) (u : String)
    (h : tenant_records l u ≠ []) : ∃ p ∈ l, p.1 = u := by
  unfold tenant_records at h
  have hf : l.filter (fun p => p.1 == u) ≠ [] := by
    intro hnil
    rw [hnil] at h
    exact h rfl
  obtain ⟨p, hp⟩ := List.exists_mem_of_ne_nil _ hf
  rcases List.mem_filter.mp hp with ⟨hmem, hbeq⟩
  exact ⟨p, hmem, by simpa using hbeq⟩

/-- C6: for every interleaved sequence of span records containing three spans
for tenant "a" and two for tenant "b" (and no other tenant), the dict
accumulated between two flushes maps exactly two tenant keys, "a" to that
tenant's three records and "b" to its two, each in enqueue order. -/
theorem C6_tenant_bucketing (l : List (String × α))
    (hk : ∀ p ∈ l, p.1 = "a" ∨ p.1 = "b")
    (ha : (tenant_records l "a").length = 3)
    (hb : (tenant_records l "b").length = 2) :
    (bucket_fold l).length = 2
    ∧ dget (bucket_fold l) "a" = some (tenant_records l "a")
    ∧ dget (bucket_fold l) "b" = some (tenant_records l "b") := by
  have hane : tenant_records l "a" ≠ [] := by
    intro h
    rw [h] at ha
    simp at ha
  have hbne : tenant_records l "b" ≠ [] := by
    intro h
    rw [h] at hb
    simp at hb
  refine ⟨?_, ?_, ?_⟩
  · have hnodup : ((bucket_fold l).map Prod.fst).Nodup :=
      bucket_fold_from_nodup l [] (by simp)
    have hmema : "a" ∈ (bucket_fold l).map Prod.fst :=
      (mem_bucket_fold_keys l "a").mpr hane
    have hmemb : "b" ∈ (bucket_fold l).map Prod.fst :=
      (mem_bucket_fold_keys l "b").mpr hbne
    have hsub : ∀ u ∈ (bucket_fold l).map Prod.fst, u = "a" ∨ u = "b" := by
      intro u hu
      obtain ⟨p, hp, hpu⟩ := tenant_records_ne_nil_exists l u
        ((mem_bucket_fold_keys l u).mp hu)
      rcases hk p hp with h | h
      · exact Or.inl (hpu ▸ h)
      · exact Or.inr (hpu ▸ h)
    have hfin : ((bucket_fold l).map Prod.fst).toFinset
        = ({"a", "b"} : Finset String) := by
      apply Finset.ext
      intro x
      simp only [List.mem_toFinset, Finset.mem_insert, Finset.mem_singleton]
      constructor
      · exact hsub x
      · rintro (rfl | rfl)
        · exact hmema
        · exact hmemb
    have hlen : ((bucket_fold l).map Prod.fst).length = 2 := by
      rw [← List.toFinset_card_of_nodup hnodup, hfin]
      decide
    simpa using hlen
  · exact dget_bucket_fold_of_ne_nil l "a" hane
  · exact dget_bucket_fold_of_ne_nil l "b" hbne

/-- Witness for C6 at a concrete interleaving: spans for tenants a, b, a, a, b
in that enqueue order. -/
theorem C6_tenant_bucketing_witness :
    (bucket_fold [("a", (1 : Nat)), ("b", 2), ("a", 3), ("a", 4),
        ("b", 5)]).length = 2
    ∧ dget (bucket_fold [("a", (1 : Nat)), ("b", 2), ("a", 3), ("a", 4),
        ("b", 5)]) "a"
      = some (tenant_records [("a", (1 : Nat)), ("b", 2), ("a", 3), ("a", 4),
        ("b", 5)] "a")
    ∧ dget (bucket_fold [("a", (1 : Nat)), ("b", 2), ("a", 3), ("a", 4),
        ("b", 5)]) "b"
      = some (tenant_records [("a", (1 : Nat)), ("b", 2), ("a", 3), ("a", 4),
        ("b", 5)] "b") :=
  C6_tenant_bucketing _ (by decide) (by decide) (by decide)

/-- C3: the trace exporter's size trigger compares the number of distinct
tenant keys (`len(batch_by_tenant)`) with `batch_size`, not the accumulated
record count: with `batch_size = 2` the inner loop consumes three spans of the
single tenant "a" without ever firing (the record count passes 2 unnoticed),
while two spans of distinct tenants "a" and "b" fire the trigger and leave the
third queue item unconsumed. -/
theorem C3_size_trigger_counts_tenants_not_records :
    span_accumulate 2 [] [("a", (1 : Nat)), ("a", 2), ("a", 3)]
      = ([("a", [1, 2, 3])], [])
    ∧ total_span_records [("a", [(1 : Nat), 2, 3])] = 3
    ∧ span_accumulate 2 [] [("a", (1 : Nat)), ("b", 2), ("c", 3)]
      = ([("a", [1]), ("b", [2])], [("c", 3)]) := by
  refine ⟨?_, ?_, ?_⟩ <;> rfl


/-- C8: if `insert_many` raises inside `MongoDBDynamicSink.flush`, the pending
batch is left entirely unchanged (the `clear` is only reached after a
successful insert), the failed transmission carried the whole batch, and the
next flush attempt retransmits exactly the same records. -/
theorem C8_flush_atomic_on_error (batch : List α) (h : batch ≠ []) :
    (sink_flush batch false).1 = batch
    ∧ (sink_flush batch false).2 = [batch]
    ∧ (sink_flush (sink_flush batch false).1 true).2 = [batch] := by
  have hl : ¬ batch.length = 0 := by
    intro h0
    exact h (List.eq_nil_of_length_eq_zero h0)
  refine ⟨?_, ?_, ?_⟩ <;>
    simp [sink_flush, hl]

/-- Witness for C8 on a one-record pending batch. -/
theorem C8_flush_atomic_on_error_witness :
    (sink_flush [(0 : Nat)] false).1 = [0]
    ∧ (sink_flush [(0 : Nat)] false).2 = [[0]]
    ∧ (sink_flush (sink_flush [(0 : Nat)] false).1 true).2 = [[0]] :=
  C8_flush_atomic_on_error [0] (by decide)

/-- The retry loop never makes more send calls than it has attempts left. -/
theorem send_loop_le (ok : Nat → Bool) :
    ∀ (rem a : Nat), (send_loop ok a rem).1 ≤ rem := by
  intro rem
  induction rem with
  | zero => intro a; simp [send_loop]
  | succ n ih =>
    intro a
    rw [send_loop]
    split
    · simp
    · simpa using Nat.succ_le_succ (ih (a + 1))

/-- When every attempt in the window fails, the retry loop makes exactly the
permitted number of send calls and reports failure. -/
theorem send_loop_all_fail (ok : Nat → Bool) :
    ∀ (rem a : Nat), (∀ i, i < rem → ok (a + i) = false) →
      send_loop ok a rem = (rem, false) := by
  intro rem
  induction rem with
  | zero => intro a _; rfl
  | succ n ih =>
    intro a h
    rw [send_loop]
    have h0 : ok a = false := by
      have := h 0 (Nat.succ_pos n)
      simpa using this
    rw [if_neg (by rw [h0]; exact Bool.false_ne_true)]
    have hrec : send_loop ok (a + 1) n = (n, false) := by
      apply ih
      intro i hi
      have := h (i + 1) (Nat.succ_lt_succ hi)
      rwa [show a + (i + 1) = a + 1 + i by omega] at this
    rw [hrec]

/-- When some attempt in the window succeeds, the retry loop reports
success. -/
theorem send_loop_success (ok : Nat → Bool) :
    ∀ (rem a : Nat), (∃ i, i < rem ∧ ok (a + i) = true) →
      (send_loop ok a rem).2 = true := by
  intro rem
  induction rem with
  | zero =>
    intro a h
    obtain ⟨i, hi, _⟩ := h
    omega
  | succ n ih =>
    intro a h
    rw [send_loop]
    by_cases h0 : ok a = true
    · rw [if_pos h0]
    · rw [if_neg h0]
      obtain ⟨i, hi, hok⟩ := h
      cases i with
      | zero => exact absurd (by simpa using hok) h0
      | succ j =>
        have : (send_loop ok (a + 1) n).2 = true := by
          apply ih
          refine ⟨j, by omega, ?_⟩
          rwa [show a + 1 + j = a + (j + 1) by omega]
        simpa using this

/-- C2: the delivery sender makes at most `max_retries` total send calls for a
sealed batch; if every one of the `max_retries` attempts fails, it makes
exactly `max_retries` calls and hands the batch to the quarantine with a retry
counter of 1 rather than dropping it; and if any attempt within the window
succeeds, the batch is discarded (no quarantine entry). -/
theorem C2_retry_then_quarantine (max_retries : Nat) (ok : Nat → Bool)
    (batch : List α) (_hm : 0 < max_retries) :
    (send_logs_async max_retries ok batch).1 ≤ max_retries
    ∧ ((∀ i, i < max_retries → ok i = false) →
        send_logs_async max_retries ok batch
          = (max_retries, some ⟨batch, 1⟩))
    ∧ ((∃ i, i < max_retries ∧ ok i = true) →
        (send_logs_async max_retries ok batch).2 = none) := by
  refine ⟨?_, ?_, ?_⟩
  · exact send_loop_le ok max_retries 0
  · intro hfail
    have hloop : send_loop ok 0 max_retries = (max_retries, false) := by
      apply send_loop_all_fail
      intro i hi
      simpa using hfail i hi
    simp [send_logs_async, hloop]
  · intro hsucc
    have hloop : (send_loop ok 0 max_retries).2 = true := by
      apply send_loop_success
      obtain ⟨i, hi, hok⟩ := hsucc
      exact ⟨i, hi, by simpa using hok⟩
    simp [send_logs_async, hloop]

/-- Witness for C2: with two permitted attempts and a permanently failing
sink, the single-record batch is quarantined with retry counter 1 after
exactly two send calls. -/
theorem C2_retry_then_quarantine_witness :
    send_logs_async 2 (fun _ => false) [(5 : Nat)]
      = (2, some (⟨[5], 1⟩ : FailedLogBatch Nat)) :=
  (C2_retry_then_quarantine 2 (fun _ => false) [5] (by decide)).2.1
    (fun _ _ => rfl)

/-- C7 counterexample: the document that `MongoBatchLogger.enqueue` builds for
a record with level "INFO", message "m" and trace-context tenant "t1" carries
that level, message and tenant, but has no service-name field at all, so the
transmitted payload does not contain a non-empty service name as claimed. -/
theorem C7_counterexample_no_service_name :
    dget (mongo_enqueue_doc 0 "INFO" "m" "t1" none none) "Level"
      = some (.s "INFO")
    ∧ dget (mongo_enqueue_doc 0 "INFO" "m" "t1" none none) "Message"
      = some (.s "m")
    ∧ dget (mongo_enqueue_doc 0 "INFO" "m" "t1" none none) "TenantId"
      = some (.s "t1")
    ∧ dget (mongo_enqueue_doc 0 "INFO" "m" "t1" none none) "ServiceName"
      = none := by
  refine ⟨rfl, rfl, rfl, rfl⟩

/-- C7 (amended): a record enqueued with level "INFO", message "m" and tenant
"t1" reaches the transmitted payload with the same level, message and tenant;
the log batcher's documents carry no service-name field, while only the async
structlog sink's `create_log_document` attaches a ServiceName, equal to the
configured service name (hence non-empty exactly when that configuration
is). -/
theorem C7_round_trip_amended (now : Nat) (trace_id span_id : Option String)
    (service_name : String) :
    (dget (mongo_enqueue_doc now "INFO" "m" "t1" trace_id span_id) "Level"
        = some (.s "INFO")
      ∧ dget (mongo_enqueue_doc now "INFO" "m" "t1" trace_id span_id)
          "Message" = some (.s "m")
      ∧ dget (mongo_enqueue_doc now "INFO" "m" "t1" trace_id span_id)
          "TenantId" = some (.s "t1")
      ∧ dget (mongo_enqueue_doc now "INFO" "m" "t1" trace_id span_id)
          "ServiceName" = none)
    ∧ (∃ doc, create_log_document service_name now
          [("event", .s "m"), ("level", .s "info"), ("TenantId", .s "t1")]
          = some doc
        ∧ dget doc "Level" = some (.s "INFO")
        ∧ dget doc "Message" = some (.s "m")
        ∧ dget doc "TenantId" = some (.s "t1")
        ∧ dget doc "ServiceName" = some (.s service_name)) := by
  refine ⟨⟨rfl, rfl, rfl, rfl⟩, ?_⟩
  refine ⟨[("Timestamp", .time now), ("Message", .s "m"),
    ("Level", .s "INFO"), ("Exception", .s ""),
    ("ServiceName", .s service_name), ("TenantId", .s "t1")], ?_, ?_, ?_, ?_, ?_⟩
  · rfl
  · rfl
  · rfl
  · rfl
  · rfl

/-- Once the class attribute holds a batch logger, every further handler
construction reuses it unchanged, whatever arguments it passes. -/
theorem mongo_handler_construct_all_some :
    ∀ (calls : List (Nat × Nat)) (l : MongoBatchLoggerCfg)
      (hs : List MongoBatchLoggerCfg),
      calls.foldl
        (fun acc c =>
          let r := mongo_handler_init acc.1 c.1 c.2
          (r.1, acc.2 ++ [r.2]))
        (some l, hs)
      = (some l, hs ++ List.replicate calls.length l) := by
  intro calls
  induction calls with
  | nil =>
    intro l hs
    simp
  | cons c rest ih =>
    intro l hs
    rw [List.foldl_cons]
    show rest.foldl _ (some l, hs ++ [l]) = _
    rw [ih l (hs ++ [l])]
    simp [List.replicate_succ, List.append_assoc]

/-- C10: in one process, only the first `MongoHandler` construction creates a
`MongoBatchLogger` (from its own `batch_size` and `flush_interval_sec`
arguments); every later construction shares that same batcher, and the
arguments of the later constructions have no effect on it: all handlers end up
with the batcher built from the first call's arguments. -/
theorem C10_singleton_handler (bs fi : Nat) (calls : List (Nat × Nat)) :
    mongo_handler_construct_all none ((bs, fi) :: calls)
      = (some ⟨bs, fi⟩,
         List.replicate (calls.length + 1) (⟨bs, fi⟩ : MongoBatchLoggerCfg)) := by
  have h := mongo_handler_construct_all_some calls ⟨bs, fi⟩ [⟨bs, fi⟩]
  unfold mongo_handler_construct_all
  rw [List.foldl_cons]
  show calls.foldl
      (fun acc c =>
        let r := mongo_handler_init acc.1 c.1 c.2
        (r.1, acc.2 ++ [r.2]))
      (some (⟨bs, fi⟩ : MongoBatchLoggerCfg),
        [(⟨bs, fi⟩ : MongoBatchLoggerCfg)]) = _
  rw [h]
  simp [List.replicate_succ]

end BlocksGenesis
